import Mathlib

/-!
# Verification of `scepter/tleforger.py`

A shallow embedding of the TLE (Two-Line Element) forger from the
`scepter` repository, together with theorems settling the specification
claims about it.

Modelling conventions:
* Python `float` values are modelled as exact rationals (`ℚ`); Python's
  `round` and `str.format` rounding is round-half-to-even, modelled on the
  rational value.
* Python strings are modelled by Lean `String`; `str.isdigit` is modelled
  by ASCII `Char.isDigit` (TLE content is ASCII).
* Exceptions (`ValueError`, `ZeroDivisionError`) are modelled by
  `Except String`.
-/

set_option maxRecDepth 100000

/-- The decimal digit characters, for rendering numbers as Python `str`/
`format` do. Arguments ≥ 10 never occur at call sites. -/
def digitChar : ℕ → Char
  | 0 => '0' | 1 => '1' | 2 => '2' | 3 => '3' | 4 => '4'
  | 5 => '5' | 6 => '6' | 7 => '7' | 8 => '8' | 9 => '9'
  | _ => '*'

/-- Fuel-driven accumulator loop producing the decimal digits of `n`
(most significant first), prepended to `acc`. -/
def natStrAux : ℕ → ℕ → List Char → List Char
  | 0, _, acc => acc
  | fuel+1, n, acc =>
    if n < 10 then digitChar n :: acc
    else natStrAux fuel (n / 10) (digitChar (n % 10) :: acc)

/-- Decimal rendering of a natural number, as Python `str(n)` for `n ≥ 0`. -/
def natStr (n : ℕ) : String := ⟨natStrAux (n+1) n []⟩

/-- Left-pad `s` with copies of `c` to total width `w`
(Python right-aligned formatting). -/
def padLeftWith (c : Char) (w : ℕ) (s : String) : String :=
  ⟨List.replicate (w - s.length) c⟩ ++ s

/-- Right-pad `s` with spaces to total width `w` (Python `"{:w}"` on a
string left-justifies). -/
def padRightSpaces (w : ℕ) (s : String) : String :=
  s ++ ⟨List.replicate (w - s.length) ' '⟩

/-- Python `"{:0wd}".format(n)` for a natural number: zero-padded decimal. -/
def intPad0 (w : ℕ) (n : ℕ) : String := padLeftWith '0' w (natStr n)

/-- Python `"{:wd}".format(n)` for a natural number: space-padded decimal. -/
def intPadSp (w : ℕ) (n : ℕ) : String := padLeftWith ' ' w (natStr n)

/-- Python `"{:0wd}".format(n)` for an integer: zero-padded decimal with
the zeros inserted after the sign. -/
def intPad0Z (w : ℕ) (n : ℤ) : String :=
  if n < 0 then "-" ++ padLeftWith '0' (w - 1) (natStr n.natAbs)
  else padLeftWith '0' w (natStr n.toNat)

/-- Python's `round` on a (nonnegative-or-negative) rational value:
round half to even, as IEEE/`float.__round__` does. -/
def rndHalfEven (q : ℚ) : ℤ :=
  if q - (⌊q⌋ : ℚ) < 1/2 then ⌊q⌋
  else if 1/2 < q - (⌊q⌋ : ℚ) then ⌊q⌋ + 1
  else if ⌊q⌋ % 2 = 0 then ⌊q⌋ else ⌊q⌋ + 1

/-- Loop `while vabs >= 10.0 and exponent < 9: vabs /= 10.0; exponent += 1`
from `format_leading_zero`, as a fuel recursion; with fuel 9 and start
exponent 0 the fuel never runs out before the guard fails. -/
def normUpAux : ℕ → ℚ → ℤ → ℚ × ℤ
  | 0, v, e => (v, e)
  | fuel+1, v, e =>
    if 10 ≤ v ∧ e < 9 then normUpAux fuel (v / 10) (e + 1) else (v, e)

/-- Loop `while vabs < 1.0 and exponent > -9: vabs *= 10.0; exponent -= 1`
from `format_leading_zero`, as a fuel recursion. -/
def normDownAux : ℕ → ℚ → ℤ → ℚ × ℤ
  | 0, v, e => (v, e)
  | fuel+1, v, e =>
    if v < 1 ∧ -9 < e then normDownAux fuel (v * 10) (e - 1) else (v, e)

/-- Steps 1-2 of `format_leading_zero` for a nonzero value: normalize
`vabs = |value|` by the two clamped while-loops, round the mantissa
(`mantissa_int = round(vabs * 10000)`), and apply the overflow carry
(`mantissa_int //= 10; exponent += 1`, re-clamped to 9). Returns the
final `(mantissa_int, exponent)` pair. -/
def flzMantExp (value : ℚ) : ℤ × ℤ :=
  let ve : ℚ × ℤ :=
    if 1 ≤ |value| then normUpAux 9 |value| 0 else normDownAux 9 |value| 0
  let mantissa_int : ℤ := rndHalfEven (ve.1 * 10000)
  if 100000 ≤ mantissa_int then
    (mantissa_int / 10, if 9 < ve.2 + 1 then 9 else ve.2 + 1)
  else (mantissa_int, ve.2)

/-- Function `format_leading_zero` from `tleforger.py` (nested inside
`forge_tle_single` in the source): encode a value in the TLE
leading-zero scientific notation,
`sign + zero-padded mantissa + exponent sign + exponent digits`. -/
def format_leading_zero (value : ℚ) : String :=
  if |value| < 1/10^99 then " 00000-0"
  else
    (if value < 0 then "-" else " ") ++
    intPad0Z 5 (flzMantExp value).1 ++
    (if (flzMantExp value).2 < 0 then "-" else "+") ++
    natStr (flzMantExp value).2.natAbs

/-- Function `_compute_tle_checksum` from `tleforger.py`:
`sum(int(ch) if ch.isdigit() else 1 if ch == '-' else 0 for ch in tle_line) % 10`. -/
def _compute_tle_checksum (tle_line : String) : ℕ :=
  (tle_line.data.map
    (fun ch => if ch.isDigit then ch.toNat - 48 else if ch = '-' then 1 else 0)).sum % 10

/-- The per-character addend as the specification words it: the digit's
value for a decimal digit, 1 for a literal minus sign, 0 for anything
else (periods, spaces, letters, plus signs, ...). -/
def checksumAddendSpec (c : Char) : ℕ :=
  if '0' ≤ c ∧ c ≤ '9' then c.toNat - 48
  else if c = '-' then 1
  else 0

/-- Python `format(q, "w.pf")`-style fixed-point rendering of a rational:
round to `prec` decimals (half to even), render
`sign + integer part + "." + zero-padded fraction`, then pad to `width`
(spaces on the left, or zeros after the sign when `zeroPad`). `forceSign`
is the `+` format flag. -/
def fmtFixed (width prec : ℕ) (zeroPad forceSign : Bool) (q : ℚ) : String :=
  if zeroPad then
    (if q < 0 then "-" else if forceSign then "+" else "") ++
    padLeftWith '0'
      (width - (if q < 0 then "-" else if forceSign then "+" else "" : String).length)
      (natStr ((rndHalfEven (|q| * 10 ^ prec) / 10 ^ prec).toNat) ++
        (if prec = 0 then "" else
          "." ++ intPad0 prec ((rndHalfEven (|q| * 10 ^ prec) % 10 ^ prec).toNat)))
  else
    padLeftWith ' ' width
      ((if q < 0 then "-" else if forceSign then "+" else "") ++
        (natStr ((rndHalfEven (|q| * 10 ^ prec) / 10 ^ prec).toNat) ++
          (if prec = 0 then "" else
            "." ++ intPad0 prec ((rndHalfEven (|q| * 10 ^ prec) % 10 ^ prec).toNat))))

/-- The epoch instant, reduced to what `forge_tle_single` reads off the
astropy `Time` object: the calendar year of `start_time.datetime`, and
the elapsed days `(start_time - start_of_year).to_value('day')` since
Jan 1 00:00 of that year. -/
structure Epoch where
  year : ℕ
  elapsedDays : ℚ

/-- Field `epoch_str` of `forge_tle_single`:
`f"{year_short:02d}{day_of_year:012.8f}"` with
`day_of_year = elapsed + 1`. -/
def epochStr (ep : Epoch) : String :=
  intPad0 2 (ep.year % 100) ++ fmtFixed 12 8 true false (ep.elapsedDays + 1)

/-- Constant `astropy.constants.GM_earth.value` = 3.986004e14 (nominal Earth mass
parameter, m^3/s^2). -/
def GM_earth : ℚ := 398600400000000

/-- Constant `astropy.constants.R_earth.value` = 6378100.0 (nominal Earth
equatorial radius, m). -/
def R_earth : ℚ := 6378100

/-- Constant `np.pi`: the IEEE-754 double closest to π, as an exact rational. -/
def piQ : ℚ := 884279719003555 / 281474976710656

/-- Newton iteration step for the integer square root, fuel-driven. -/
def isqrtAux : ℕ → ℕ → ℕ → ℕ
  | 0, _, g => g
  | fuel+1, n, g =>
    if (g + n / g) / 2 < g then isqrtAux fuel n ((g + n / g) / 2) else g

/-- Integer square root by Newton iteration (the fuel 200 covers any
argument below 2^200; the iteration stops at the fixpoint long before). -/
def isqrt (n : ℕ) : ℕ := if n ≤ 1 then n else isqrtAux 200 n n

/-- Function `np.sqrt` on a nonnegative value, modelled to 15 fractional decimal
digits of precision (the double result agrees with the real square root
to about 16 significant digits; all uses here are far from rounding
boundaries). -/
def sqrtQ (q : ℚ) : ℚ := ((isqrt (⌊q * 10 ^ 30⌋).toNat : ℕ) : ℚ) / 10 ^ 15

/-- Mean motion in revolutions/day from the circular-orbit assumption:
`np.sqrt(GM_earth.value / a_m**3) * (86400.0 / (2.0 * np.pi))` with
`a_m = R_earth.value + altitude_m`. -/
def mean_motion_rev_day (altitude_m : ℚ) : ℚ :=
  sqrtQ (GM_earth / (R_earth + altitude_m) ^ 3) * (86400 / (2 * piQ))

/-- Field `mm_dot_string = f"{mm_dot:+.8f}"[:1] + f"{mm_dot:+.8f}"[2:]` with
`mm_dot = 0.0`: the signed first derivative field with the leading zero
removed. -/
def mm_dot_string : String :=
  (fmtFixed 0 8 false true 0).take 1 ++ (fmtFixed 0 8 false true 0).drop 2

/-- Fixed placeholder NORAD catalog number (`sat_number = 0`). -/
def sat_number : ℕ := 0

/-- Fixed classification letter (`"U"`). -/
def classification : String := "U"

/-- Fixed international designator placeholder (`"25001A"`). -/
def int_desg : String := "25001A"

/-- Placeholder `ephemeris_type = 0`. -/
def ephemeris_type : ℕ := 0

/-- Placeholder `element_set_number = 1`. -/
def element_set_number : ℕ := 1

/-- Placeholder `rev_number = 1`. -/
def rev_number : ℕ := 1

/-- The data portion of TLE line 1 (before the checksum):
`f"1 {sat_number:05d}{classification} {int_desg:8} {epoch_str:14} {mm_dot_string} {format_leading_zero(mm_ddot)} {format_leading_zero(bstar)} {ephemeris_type} {element_set_number:4d}"`
with `mm_ddot = bstar = 0.0`. -/
def line1Data (ep : Epoch) : String :=
  "1 " ++ intPad0 5 sat_number ++ classification ++ " " ++
  padRightSpaces 8 int_desg ++ " " ++ padRightSpaces 14 (epochStr ep) ++ " " ++
  mm_dot_string ++ " " ++ format_leading_zero 0 ++ " " ++
  format_leading_zero 0 ++ " " ++ natStr ephemeris_type ++ " " ++
  intPadSp 4 element_set_number

/-- Field `ecc_str = f"{eccentricity:.7f}"[2:]`: the `.7f` rendering with the
first two characters removed. -/
def eccStr (eccentricity : ℚ) : String :=
  (fmtFixed 0 7 false false eccentricity).drop 2

/-- The data portion of TLE line 2 (before the checksum):
`"2 {:05d} {:8.4f} {:8.4f} {:7} {:8.4f} {:8.4f} {:11.8f}{:05d}"` applied
to catalog number, inclination, RAAN, eccentricity string, argument of
perigee, mean anomaly, mean motion and revolution number. -/
def line2Data (altitude_m eccentricity inclination_deg raan_deg argp_deg
    anomaly_deg : ℚ) : String :=
  "2 " ++ intPad0 5 sat_number ++ " " ++
  fmtFixed 8 4 false false inclination_deg ++ " " ++
  fmtFixed 8 4 false false raan_deg ++ " " ++
  padRightSpaces 7 (eccStr eccentricity) ++ " " ++
  fmtFixed 8 4 false false argp_deg ++ " " ++
  fmtFixed 8 4 false false anomaly_deg ++ " " ++
  fmtFixed 11 8 false false (mean_motion_rev_day altitude_m) ++
  intPad0 5 rev_number

/-- Function `forge_tle_single` from `tleforger.py`: assemble the two data lines,
raise `ValueError` if either is not exactly 68 characters, append the
checksum digits, and return `sat_name + "\n" + line1 + "\n" + line2`. -/
def forge_tle_single (sat_name : String)
    (altitude_m eccentricity inclination_deg raan_deg argp_deg anomaly_deg : ℚ)
    (start_time : Epoch) : Except String String :=
  if (line1Data start_time).length ≠ 68 then
    Except.error "Line 1 is not 68 characters long before adding checksum."
  else if (line2Data altitude_m eccentricity inclination_deg raan_deg argp_deg
      anomaly_deg).length ≠ 68 then
    Except.error "Line 2 is not 68 characters long before adding checksum."
  else
    Except.ok (sat_name ++ "\n" ++
      (line1Data start_time ++
        natStr (_compute_tle_checksum (line1Data start_time))) ++ "\n" ++
      (line2Data altitude_m eccentricity inclination_deg raan_deg argp_deg
          anomaly_deg ++
        natStr (_compute_tle_checksum (line2Data altitude_m eccentricity
          inclination_deg raan_deg argp_deg anomaly_deg))))

/-- Name `sat_name = f"SystemC_Belt_1_Plane_{plane_idx+1}_Satellite_{satellite_idx+1}"`. -/
def satNameOf (plane_idx satellite_idx : ℕ) : String :=
  "SystemC_Belt_1_Plane_" ++ natStr (plane_idx + 1) ++ "_Satellite_" ++
    natStr (satellite_idx + 1)

/-- Loop `for idx in range(i, i + fuel): ...` collecting results, with Python
exception propagation: the first raised error aborts the whole loop. -/
def rangeMapExcept {α : Type} (f : ℕ → Except String α) : ℕ → ℕ → Except String (List α)
  | _, 0 => Except.ok []
  | i, fuel+1 =>
    match f i with
    | Except.error e => Except.error e
    | Except.ok x =>
      match rangeMapExcept f (i+1) fuel with
      | Except.error e => Except.error e
      | Except.ok xs => Except.ok (x :: xs)

/-- Function `forge_tle_belt` from `tleforger.py`: `step = 360.0/num_sats_per_plane`
(a `ZeroDivisionError` when `num_sats_per_plane == 0`), then the nested
plane-major loops appending one forged record per
`(plane_idx, satellite_idx)`, with `raan = plane_idx * 10.0` and
`anomaly = satellite_idx * step`. -/
def forge_tle_belt (num_sats_per_plane plane_count : ℕ)
    (altitude_km eccentricity inclination_deg argp_deg : ℚ)
    (start_time : Epoch) : Except String (List String) :=
  if num_sats_per_plane = 0 then
    Except.error "ZeroDivisionError: float division by zero"
  else
    match rangeMapExcept (fun plane_idx =>
      rangeMapExcept (fun satellite_idx =>
        forge_tle_single (satNameOf plane_idx satellite_idx)
          (altitude_km * 1000) eccentricity inclination_deg
          ((plane_idx : ℚ) * 10) argp_deg
          ((satellite_idx : ℚ) * (360 / (num_sats_per_plane : ℚ)))
          start_time) 0 num_sats_per_plane) 0 plane_count with
    | Except.error e => Except.error e
    | Except.ok planes => Except.ok planes.flatten

-- ===================================================================
-- Theorems
-- ===================================================================

theorem checksum_lambda_eq_spec (c : Char) :
    (if c.isDigit then c.toNat - 48 else if c = '-' then 1 else 0) =
      checksumAddendSpec c := by
  unfold checksumAddendSpec
  have h : c.isDigit = true ↔ ('0' ≤ c ∧ c ≤ '9') := by
    simp [Char.isDigit, Char.le_def, Char.toNat]
  by_cases hd : c.isDigit
  · rw [if_pos hd, if_pos (h.mp hd)]
  · rw [if_neg hd, if_neg (fun hc => hd (h.mpr hc))]

/-- C2: for every string, `_compute_tle_checksum` returns the sum over its
characters of the digit value for each decimal digit, 1 for each literal
minus sign and 0 for every other character, taken modulo 10; hence the
result always lies in `0..9`. -/
theorem compute_tle_checksum_spec (s : String) :
    _compute_tle_checksum s = (s.data.map checksumAddendSpec).sum % 10 ∧
      _compute_tle_checksum s < 10 := by
  constructor
  · unfold _compute_tle_checksum
    rw [List.map_congr_left (fun c _ => checksum_lambda_eq_spec c)]
  · exact Nat.mod_lt _ (by norm_num)

-- String and digit rendering lemmas ---------------------------------

theorem String.length_mk_list (l : List Char) : (String.mk l).length = l.length := rfl

theorem padLeftWith_length (c : Char) (w : ℕ) (s : String) :
    (padLeftWith c w s).length = max w s.length := by
  simp only [padLeftWith, String.length_append, String.length_mk_list,
    List.length_replicate]
  omega

theorem padRightSpaces_length (w : ℕ) (s : String) :
    (padRightSpaces w s).length = max w s.length := by
  simp only [padRightSpaces, String.length_append, String.length_mk_list,
    List.length_replicate]
  omega

theorem digitChar_isDigit {d : ℕ} (h : d < 10) : (digitChar d).isDigit = true := by
  interval_cases d <;> decide

theorem natStrAux_digits :
    ∀ (fuel n : ℕ) (acc : List Char), (∀ c ∈ acc, c.isDigit = true) →
      ∀ c ∈ natStrAux fuel n acc, c.isDigit = true := by
  intro fuel
  induction fuel with
  | zero => intro n acc hacc; simpa [natStrAux] using hacc
  | succ fuel ih =>
    intro n acc hacc c hc
    rw [natStrAux] at hc
    by_cases hn : n < 10
    · rw [if_pos hn] at hc
      rcases List.mem_cons.mp hc with h | h
      · subst h; exact digitChar_isDigit hn
      · exact hacc c h
    · rw [if_neg hn] at hc
      refine ih (n / 10) _ ?_ c hc
      intro d hd
      rcases List.mem_cons.mp hd with h | h
      · subst h; exact digitChar_isDigit (Nat.mod_lt _ (by norm_num))
      · exact hacc d h

theorem natStr_digits (n : ℕ) : ∀ c ∈ (natStr n).data, c.isDigit = true := by
  intro c hc
  exact natStrAux_digits (n+1) n [] (by simp) c hc

theorem natStrAux_length_le :
    ∀ (fuel k n : ℕ) (acc : List Char), n < fuel → 0 < k → n < 10 ^ k →
      (natStrAux fuel n acc).length ≤ k + acc.length := by
  intro fuel
  induction fuel with
  | zero => intro k n acc h; omega
  | succ fuel ih =>
    intro k n acc hf hk hn
    rw [natStrAux]
    by_cases h10 : n < 10
    · rw [if_pos h10]
      simp only [List.length_cons]
      omega
    · rw [if_neg h10]
      have hk2 : 2 ≤ k := by
        rcases Nat.lt_or_ge k 2 with hcon | hcon
        · interval_cases k
          omega
        · exact hcon
      have h1 : n / 10 < fuel := by omega
      have h3 : n / 10 < 10 ^ (k - 1) := by
        have : 10 ^ k = 10 ^ (k - 1) * 10 := by
          rw [← pow_succ]
          congr 1
          omega
        omega
      have := ih (k - 1) (n / 10) (digitChar (n % 10) :: acc) h1 (by omega) h3
      simp only [List.length_cons] at this
      omega

theorem natStr_length_le {n k : ℕ} (hk : 0 < k) (h : n < 10 ^ k) :
    (natStr n).length ≤ k := by
  have := natStrAux_length_le (n+1) k n [] (Nat.lt_succ_self n) hk h
  simpa [natStr, String.length_mk_list] using this

theorem natStr_one_digit {n : ℕ} (h : n < 10) : natStr n = String.mk [digitChar n] := by
  simp [natStr, natStrAux, h]

theorem intPad0Z_length {m : ℤ} (h0 : 0 ≤ m) (h : m < 100000) :
    (intPad0Z 5 m).length = 5 := by
  unfold intPad0Z
  rw [if_neg (not_lt.mpr h0)]
  rw [padLeftWith_length]
  have : m.toNat < 10 ^ 5 := by omega
  have := natStr_length_le (by norm_num) this
  omega

theorem intPad0Z_digits {m : ℤ} (h0 : 0 ≤ m) :
    ∀ c ∈ (intPad0Z 5 m).data, c.isDigit = true := by
  unfold intPad0Z
  rw [if_neg (not_lt.mpr h0)]
  intro c hc
  simp only [padLeftWith, String.data_append] at hc
  rcases List.mem_append.mp hc with h | h
  · have : c = '0' := by
      have := List.eq_of_mem_replicate h
      exact this
    subst this; decide
  · exact natStr_digits _ c h

-- Round-half-even lemmas --------------------------------------------

theorem rndHalfEven_ge_floor (q : ℚ) : ⌊q⌋ ≤ rndHalfEven q := by
  unfold rndHalfEven
  split_ifs <;> omega

theorem rndHalfEven_nonneg {q : ℚ} (h : 0 ≤ q) : 0 ≤ rndHalfEven q :=
  le_trans (Int.floor_nonneg.mpr h) (rndHalfEven_ge_floor q)

theorem rndHalfEven_le {q : ℚ} {n : ℤ} (h : q < n + 1/2) : rndHalfEven q ≤ n := by
  unfold rndHalfEven
  have hfl : (⌊q⌋ : ℚ) ≤ q := Int.floor_le q
  have hfn : ⌊q⌋ ≤ n := by
    have h1 : (⌊q⌋ : ℚ) < (n : ℚ) + 1 := lt_of_le_of_lt hfl (h.trans (by norm_num))
    have h2 : ⌊q⌋ < n + 1 := by exact_mod_cast h1
    omega
  split_ifs with h1 h2 h3
  · exact hfn
  · -- 1/2 < q - ⌊q⌋ : the floor is strictly below n
    rcases lt_or_eq_of_le hfn with hlt | heq
    · omega
    · exfalso
      rw [heq] at h2
      have : q - (n : ℚ) < 1/2 := by linarith
      linarith
  · exact hfn
  · -- tie at exactly 1/2: q = ⌊q⌋ + 1/2 < n + 1/2 forces ⌊q⌋ < n
    have htie : q - (⌊q⌋ : ℚ) = 1/2 := le_antisymm (not_lt.mp h2) (not_lt.mp h1)
    rcases lt_or_eq_of_le hfn with hlt | heq
    · omega
    · exfalso
      rw [heq] at htie
      have : q = (n : ℚ) + 1/2 := by linarith
      rw [this] at h
      linarith

-- Normalization loop lemmas -----------------------------------------

theorem normUpAux_spec :
    ∀ (fuel : ℕ) (v : ℚ) (e : ℤ), 0 < v → e + (fuel : ℤ) = 9 →
      0 < (normUpAux fuel v e).1 ∧
      e ≤ (normUpAux fuel v e).2 ∧
      (normUpAux fuel v e).2 ≤ 9 ∧
      (normUpAux fuel v e).1 * 10 ^ ((normUpAux fuel v e).2 - e).toNat = v ∧
      ((normUpAux fuel v e).1 < 10 ∨ (normUpAux fuel v e).2 = 9) := by
  intro fuel
  induction fuel with
  | zero =>
    intro v e hv he
    have he9 : e = 9 := by omega
    simp [normUpAux, hv, he9]
  | succ fuel ih =>
    intro v e hv he
    rw [normUpAux]
    by_cases h : 10 ≤ v ∧ e < 9
    · rw [if_pos h]
      have hrec := ih (v / 10) (e + 1) (by positivity) (by push_cast at he ⊢; omega)
      obtain ⟨h1, h2, h3, h4, h5⟩ := hrec
      refine ⟨h1, by omega, h3, ?_, h5⟩
      have hge : e + 1 ≤ (normUpAux fuel (v / 10) (e + 1)).2 := h2
      have htn : ((normUpAux fuel (v / 10) (e + 1)).2 - e).toNat =
          ((normUpAux fuel (v / 10) (e + 1)).2 - (e + 1)).toNat + 1 := by omega
      rw [htn, pow_succ, ← mul_assoc, h4]
      field_simp
    · rw [if_neg h]
      have he8 : e ≤ 8 := by push_cast at he; omega
      push_neg at h
      refine ⟨hv, le_refl e, by omega, by simp, ?_⟩
      by_cases hv10 : v < 10
      · exact Or.inl hv10
      · exact absurd (h (not_lt.mp hv10)) (by omega)

theorem normDownAux_spec :
    ∀ (fuel : ℕ) (v : ℚ) (e : ℤ), 0 < v → v < 10 → (fuel : ℤ) = 9 + e →
      0 < (normDownAux fuel v e).1 ∧
      (normDownAux fuel v e).1 < 10 ∧
      (normDownAux fuel v e).2 ≤ e ∧
      -9 ≤ (normDownAux fuel v e).2 ∧
      (normDownAux fuel v e).1 = v * 10 ^ (e - (normDownAux fuel v e).2).toNat := by
  intro fuel
  induction fuel with
  | zero =>
    intro v e hv hv10 he
    have he9 : e = -9 := by omega
    simp [normDownAux, hv, hv10, he9]
  | succ fuel ih =>
    intro v e hv hv10 he
    rw [normDownAux]
    by_cases h : v < 1 ∧ -9 < e
    · rw [if_pos h]
      have hrec := ih (v * 10) (e - 1) (by positivity)
        (by nlinarith [h.1]) (by push_cast at he ⊢; omega)
      obtain ⟨h1, h2, h3, h4, h5⟩ := hrec
      refine ⟨h1, h2, by omega, h4, ?_⟩
      have htn : (e - (normDownAux fuel (v * 10) (e - 1)).2).toNat =
          (e - 1 - (normDownAux fuel (v * 10) (e - 1)).2).toNat + 1 := by omega
      rw [htn, pow_succ, h5]
      ring
    · rw [if_neg h]
      have he8 : -8 ≤ e := by push_cast at he; omega
      refine ⟨hv, hv10, le_refl e, by omega, by simp⟩

-- Mantissa/exponent bounds for the scientific encoder ---------------

theorem flzMantExp_bounds (q : ℚ) (h0 : 0 < |q|) (hb : |q| < 99999950000) :
    0 ≤ (flzMantExp q).1 ∧ (flzMantExp q).1 < 100000 ∧
      -9 ≤ (flzMantExp q).2 ∧ (flzMantExp q).2 ≤ 9 := by
  unfold flzMantExp
  by_cases hc : 1 ≤ |q|
  · rw [if_pos hc]
    obtain ⟨h1, h2, h3, h4, h5⟩ :=
      normUpAux_spec 9 |q| 0 (by linarith) (by norm_num)
    set p := normUpAux 9 |q| 0 with hp
    have hm0 : 0 ≤ rndHalfEven (p.1 * 10000) :=
      rndHalfEven_nonneg (by positivity)
    have hmle : rndHalfEven (p.1 * 10000) ≤ 999999 := by
      apply rndHalfEven_le
      rcases h5 with hlt | he9
      · push_cast
        nlinarith
      · -- exponent clamped at 9 : p.1 = |q| / 10^9 < 99.99995
        have hpow : ((p.2 - 0).toNat) = 9 := by omega
        rw [hpow] at h4
        have hval : p.1 * 1000000000 = |q| := by norm_num at h4; linarith [h4]
        push_cast
        nlinarith
    by_cases hover : 100000 ≤ rndHalfEven (p.1 * 10000)
    · rw [if_pos hover]
      constructor
      · simp only
        omega
      constructor
      · simp only
        omega
      · by_cases h9 : 9 < p.2 + 1
        · simp [h9]
        · simp only [if_neg h9]
          omega
    · rw [if_neg hover]
      exact ⟨hm0, by omega, by omega, by omega⟩
  · rw [if_neg hc]
    push_neg at hc
    obtain ⟨h1, h2, h3, h4, h5⟩ :=
      normDownAux_spec 9 |q| 0 h0 (by linarith) (by norm_num)
    set p := normDownAux 9 |q| 0 with hp
    have hm0 : 0 ≤ rndHalfEven (p.1 * 10000) :=
      rndHalfEven_nonneg (by positivity)
    have hmle : rndHalfEven (p.1 * 10000) ≤ 100000 := by
      apply rndHalfEven_le
      push_cast
      nlinarith
    by_cases hover : 100000 ≤ rndHalfEven (p.1 * 10000)
    · rw [if_pos hover]
      constructor
      · simp only
        omega
      constructor
      · simp only
        omega
      · by_cases h9 : 9 < p.2 + 1
        · simp [h9]
        · simp only [if_neg h9]
          omega
    · rw [if_neg hover]
      exact ⟨hm0, by omega, by omega, by omega⟩

-- C3 / C4 -----------------------------------------------------------

theorem flz_nonzero_decomp (q : ℚ) (hz : ¬ |q| < 1/10^99) :
    format_leading_zero q =
      (if q < 0 then "-" else " ") ++ intPad0Z 5 (flzMantExp q).1 ++
      (if (flzMantExp q).2 < 0 then "-" else "+") ++
      natStr (flzMantExp q).2.natAbs := by
  unfold format_leading_zero
  rw [if_neg hz]

/-- C3 (amended with the bound `|value| < 9.999995e10`, forced by the
counterexample `1e11`): the scientific encoder returns an 8-character
token; for `|value| < 1e-99` exactly `" 00000-0"`, otherwise sign
character + 5-digit zero-padded mantissa + exponent sign + single
exponent digit, with the exponent clamped to `[-9, 9]`. -/
theorem format_leading_zero_token_structure (q : ℚ) (hb : |q| < 99999950000) :
    (format_leading_zero q).length = 8 ∧
    (|q| < 1/10^99 → format_leading_zero q = " 00000-0") ∧
    (¬ |q| < 1/10^99 →
      ∃ m e : ℤ, 0 ≤ m ∧ m < 100000 ∧ -9 ≤ e ∧ e ≤ 9 ∧
        format_leading_zero q =
          (if q < 0 then "-" else " ") ++ intPad0Z 5 m ++
          (if e < 0 then "-" else "+") ++ natStr e.natAbs) := by
  by_cases hz : |q| < 1/10^99
  · have hflz : format_leading_zero q = " 00000-0" := by
      unfold format_leading_zero
      rw [if_pos hz]
    exact ⟨by rw [hflz]; rfl, fun _ => hflz, fun hc => absurd hz hc⟩
  · have h0 : 0 < |q| := lt_of_lt_of_le (by positivity) (not_lt.mp hz)
    obtain ⟨hm0, hm1, he0, he1⟩ := flzMantExp_bounds q h0 hb
    have hflz := flz_nonzero_decomp q hz
    refine ⟨?_, fun hzz => absurd hzz hz,
      fun _ => ⟨(flzMantExp q).1, (flzMantExp q).2, hm0, hm1, he0, he1, hflz⟩⟩
    have hs1 : (if q < 0 then ("-" : String) else " ").length = 1 := by
      split_ifs <;> rfl
    have hs2 : (if (flzMantExp q).2 < 0 then ("-" : String) else "+").length = 1 := by
      split_ifs <;> rfl
    have hlen4 : (natStr (flzMantExp q).2.natAbs).length = 1 := by
      rw [natStr_one_digit (show (flzMantExp q).2.natAbs < 10 by omega)]
      rfl
    rw [hflz, String.length_append, String.length_append, String.length_append,
      hs1, hs2, hlen4, intPad0Z_length hm0 hm1]

/-- C3 counterexample: at input `1e11` the token has 9 characters
(`" 100000+9"`), not 8. -/
theorem format_leading_zero_not_always_eight :
    (format_leading_zero (100000000000 : ℚ)).length ≠ 8 := by
  have h : (format_leading_zero (100000000000 : ℚ)).length = 9 := by
    with_unfolding_all rfl
  omega

/-- Witness for C3's amended theorem at the concrete input 2. -/
theorem format_leading_zero_token_structure_witness :
    (format_leading_zero (2 : ℚ)).length = 8 :=
  (format_leading_zero_token_structure 2 (by norm_num)).1

/-- C4 (amended with the bound `|value| < 9.999995e10`, forced by the
counterexample `1e12`): the rounding-overflow carry works
(`9.99996e-3 → " 10000-2"`, exponent carried from -3 to -2), and below
the bound the emitted mantissa portion is always exactly 5 digits. -/
theorem format_leading_zero_mantissa_five_digits (q : ℚ) (hb : |q| < 99999950000) :
    format_leading_zero (999996/100000000 : ℚ) = " 10000-2" ∧
    ∃ sgn mant tail : String,
      format_leading_zero q = sgn ++ mant ++ tail ∧
      sgn.length = 1 ∧ mant.length = 5 ∧ tail.length = 2 ∧
      ∀ c ∈ mant.data, c.isDigit = true := by
  refine ⟨by with_unfolding_all rfl, ?_⟩
  by_cases hz : |q| < 1/10^99
  · refine ⟨" ", "00000", "-0", ?_, rfl, rfl, rfl, by decide⟩
    unfold format_leading_zero
    rw [if_pos hz]
    rfl
  · have h0 : 0 < |q| := lt_of_lt_of_le (by positivity) (not_lt.mp hz)
    obtain ⟨hm0, hm1, he0, he1⟩ := flzMantExp_bounds q h0 hb
    refine ⟨(if q < 0 then "-" else " "), intPad0Z 5 (flzMantExp q).1,
      (if (flzMantExp q).2 < 0 then "-" else "+") ++ natStr (flzMantExp q).2.natAbs,
      ?_, by split_ifs <;> rfl, intPad0Z_length hm0 hm1, ?_, intPad0Z_digits hm0⟩
    · rw [flz_nonzero_decomp q hz, String.append_assoc, String.append_assoc]
    · have hs2 : (if (flzMantExp q).2 < 0 then ("-" : String) else "+").length = 1 := by
        split_ifs <;> rfl
      have hlen4 : (natStr (flzMantExp q).2.natAbs).length = 1 := by
        rw [natStr_one_digit (show (flzMantExp q).2.natAbs < 10 by omega)]
        rfl
      rw [String.length_append, hs2, hlen4]

/-- C4 counterexample: at input `1e12` the token is `" 1000000+9"` (10
characters, 7-digit mantissa), so no sign(1)/mantissa(5)/exponent(2)
split exists. -/
theorem format_leading_zero_six_digit_mantissa :
    ¬ ∃ sgn mant tail : String,
        format_leading_zero (1000000000000 : ℚ) = sgn ++ mant ++ tail ∧
        sgn.length = 1 ∧ mant.length = 5 ∧ tail.length = 2 := by
  rintro ⟨s, m, t, heq, h1, h2, h3⟩
  have h : (format_leading_zero (1000000000000 : ℚ)).length = 10 := by
    with_unfolding_all rfl
  rw [heq, String.length_append, String.length_append] at h
  omega

/-- Witness for C4's amended theorem at the concrete input 0. -/
theorem format_leading_zero_mantissa_five_digits_witness :
    format_leading_zero (999996/100000000 : ℚ) = " 10000-2" :=
  (format_leading_zero_mantissa_five_digits 0 (by norm_num)).1

-- Width lemmas for the fixed-point fields ---------------------------

theorem natStrAux_length_ge :
    ∀ (fuel n : ℕ) (acc : List Char), n < fuel →
      acc.length + 1 ≤ (natStrAux fuel n acc).length := by
  intro fuel
  induction fuel with
  | zero => intro n acc h; omega
  | succ fuel ih =>
    intro n acc hf
    rw [natStrAux]
    by_cases h10 : n < 10
    · rw [if_pos h10]
      simp
    · rw [if_neg h10]
      have := ih (n / 10) (digitChar (n % 10) :: acc) (by omega)
      simp only [List.length_cons] at this
      omega

theorem natStr_length_pos (n : ℕ) : 1 ≤ (natStr n).length := by
  have := natStrAux_length_ge (n+1) n [] (Nat.lt_succ_self n)
  simpa [natStr, String.length_mk_list] using this

theorem intPad0_length_of_lt {w n : ℕ} (hw : 0 < w) (h : n < 10 ^ w) :
    (intPad0 w n).length = w := by
  unfold intPad0
  rw [padLeftWith_length]
  have := natStr_length_le hw h
  omega

theorem intPad0_digits (w n : ℕ) : ∀ c ∈ (intPad0 w n).data, c.isDigit = true := by
  unfold intPad0 padLeftWith
  intro c hc
  rw [String.data_append] at hc
  rcases List.mem_append.mp hc with h | h
  · rw [List.eq_of_mem_replicate h]
    decide
  · exact natStr_digits _ c h

theorem fmtFixed_length_ge (w prec : ℕ) (zp fs : Bool) (q : ℚ) :
    w ≤ (fmtFixed w prec zp fs q).length := by
  unfold fmtFixed
  by_cases hz : zp = true
  · rw [if_pos hz, String.length_append, padLeftWith_length]
    omega
  · rw [if_neg hz, padLeftWith_length]
    omega

theorem checksum_lt_ten (s : String) : _compute_tle_checksum s < 10 :=
  Nat.mod_lt _ (by norm_num)

theorem natStr_checksum_length (s : String) :
    (natStr (_compute_tle_checksum s)).length = 1 := by
  rw [natStr_one_digit (checksum_lt_ten s)]
  rfl

-- Evaluated constants of line 1 -------------------------------------

theorem mm_dot_string_eq : mm_dot_string = "+.00000000" := by
  with_unfolding_all rfl

theorem format_leading_zero_zero : format_leading_zero 0 = " 00000-0" := by
  with_unfolding_all rfl

-- Exact width of the epoch field and of line 1 ----------------------

theorem rnd_abs_bound {q : ℚ} {b : ℤ} (h0 : 0 ≤ q) (h : q < b) :
    0 ≤ rndHalfEven (|q|) ∧ rndHalfEven (|q|) ≤ b := by
  rw [abs_of_nonneg h0]
  exact ⟨rndHalfEven_nonneg h0, rndHalfEven_le (by linarith)⟩

theorem epochStr_length (ep : Epoch) (h0 : 0 ≤ ep.elapsedDays)
    (h1 : ep.elapsedDays < 366) : (epochStr ep).length = 14 := by
  unfold epochStr
  rw [String.length_append]
  have hy : (intPad0 2 (ep.year % 100)).length = 2 := by
    refine intPad0_length_of_lt (by norm_num) ?_
    have := Nat.mod_lt ep.year (show 0 < 100 by norm_num)
    norm_num
    omega
  rw [hy]
  unfold fmtFixed
  have hq0 : (0:ℚ) ≤ ep.elapsedDays + 1 := by linarith
  have hql : ¬ (ep.elapsedDays + 1 < 0) := by linarith
  rw [if_pos rfl, if_neg hql]
  simp only [Bool.false_eq_true, if_false]
  rw [abs_of_nonneg hq0]
  have hrnd0 : 0 ≤ rndHalfEven ((ep.elapsedDays + 1) * 10 ^ 8) :=
    rndHalfEven_nonneg (by positivity)
  have hrndb : rndHalfEven ((ep.elapsedDays + 1) * 10 ^ 8) ≤ 36700000000 := by
    apply rndHalfEven_le
    push_cast
    nlinarith
  have hip : ((rndHalfEven ((ep.elapsedDays + 1) * 10 ^ 8) / 10 ^ 8).toNat) < 10 ^ 3 := by
    omega
  have hfp : ((rndHalfEven ((ep.elapsedDays + 1) * 10 ^ 8) % 10 ^ 8).toNat) < 10 ^ 8 := by
    omega
  have hiplen := natStr_length_le (show 0 < 3 by norm_num) hip
  have hfplen : (intPad0 8 ((rndHalfEven ((ep.elapsedDays + 1) * 10 ^ 8) % 10 ^ 8).toNat)).length = 8 :=
    intPad0_length_of_lt (by norm_num) hfp
  rw [String.length_append, padLeftWith_length, String.length_append]
  have h8 : (8:ℕ) ≠ 0 := by norm_num
  rw [if_neg h8, String.length_append, hfplen]
  have hd : ("." : String).length = 1 := rfl
  have he : ("" : String).length = 0 := rfl
  rw [hd, he]
  omega

theorem line1Data_length (ep : Epoch) (h0 : 0 ≤ ep.elapsedDays)
    (h1 : ep.elapsedDays < 366) : (line1Data ep).length = 68 := by
  unfold line1Data
  simp only [String.length_append, padRightSpaces_length, mm_dot_string_eq,
    format_leading_zero_zero]
  rw [epochStr_length ep h0 h1]
  decide

theorem line2Data_length_eq (alt e i r ap an : ℚ) :
    (line2Data alt e i r ap an).length =
      18 + (fmtFixed 8 4 false false i).length + (fmtFixed 8 4 false false r).length +
      (padRightSpaces 7 (eccStr e)).length + (fmtFixed 8 4 false false ap).length +
      (fmtFixed 8 4 false false an).length +
      (fmtFixed 11 8 false false (mean_motion_rev_day alt)).length := by
  unfold line2Data
  simp only [String.length_append]
  rw [show (intPad0 5 sat_number).length = 5 from rfl,
    show (intPad0 5 rev_number).length = 5 from rfl,
    show ("2 " : String).length = 2 from rfl,
    show (" " : String).length = 1 from rfl]
  omega

-- Belt loop machinery -----------------------------------------------

theorem rangeMapExcept_ok {α : Type} (f : ℕ → Except String α) :
    ∀ (fuel i : ℕ) (l : List α), rangeMapExcept f i fuel = Except.ok l →
      l.length = fuel ∧ ∀ j, j < fuel → ∃ x, f (i + j) = Except.ok x ∧ l[j]? = some x := by
  intro fuel
  induction fuel with
  | zero =>
    intro i l h
    rw [rangeMapExcept] at h
    have hl := Except.ok.inj h
    subst hl
    exact ⟨rfl, by omega⟩
  | succ fuel ih =>
    intro i l h
    rw [rangeMapExcept] at h
    cases hfi : f i with
    | error e => rw [hfi] at h; exact absurd h (by simp)
    | ok x =>
      rw [hfi] at h
      cases hrec : rangeMapExcept f (i+1) fuel with
      | error e => rw [hrec] at h; exact absurd h (by simp)
      | ok xs =>
        rw [hrec] at h
        have hl := Except.ok.inj h
        subst hl
        obtain ⟨hlen, hmem⟩ := ih (i+1) xs hrec
        refine ⟨by simp [hlen], ?_⟩
        intro j hj
        cases j with
        | zero => exact ⟨x, by simpa using hfi, by simp⟩
        | succ k =>
          obtain ⟨y, hy, hget⟩ := hmem k (by omega)
          refine ⟨y, ?_, by simpa using hget⟩
          have hik : i + (k + 1) = (i + 1) + k := by omega
          rw [hik]
          exact hy

theorem flatten_length_of_all {α : Type} (n : ℕ) :
    ∀ (L : List (List α)), (∀ l ∈ L, l.length = n) →
      L.flatten.length = n * L.length := by
  intro L
  induction L with
  | nil => intro _; simp
  | cons a L ih =>
    intro hall
    rw [List.flatten_cons, List.length_append,
      ih (fun l hl => hall l (List.mem_cons_of_mem a hl)),
      hall a (List.mem_cons_self a L), List.length_cons]
    ring

theorem flatten_getElem_of_all {α : Type} (n : ℕ) :
    ∀ (L : List (List α)), (∀ l ∈ L, l.length = n) →
      ∀ pi si, pi < L.length → si < n →
        ∃ l, L[pi]? = some l ∧ L.flatten[pi * n + si]? = l[si]? := by
  intro L
  induction L with
  | nil => intro _ pi si hpi _; simp at hpi
  | cons a L ih =>
    intro hall pi si hpi hsi
    have ha : a.length = n := hall a (List.mem_cons_self a L)
    cases pi with
    | zero =>
      refine ⟨a, by simp, ?_⟩
      rw [List.flatten_cons, show 0 * n + si = si by ring]
      exact List.getElem?_append_left (by omega)
    | succ pi =>
      obtain ⟨l, hl, hg⟩ := ih (fun l hl => hall l (List.mem_cons_of_mem a hl))
        pi si (by simpa using hpi) hsi
      refine ⟨l, by simpa using hl, ?_⟩
      rw [List.flatten_cons, show (pi + 1) * n + si = a.length + (pi * n + si) by rw [ha]; ring,
        List.getElem?_append_right (by omega),
        show a.length + (pi * n + si) - a.length = pi * n + si by omega]
      exact hg

theorem belt_ok_spec (n p : ℕ) (alt ecc incl argp : ℚ) (ep : Epoch) (l : List String)
    (h : forge_tle_belt n p alt ecc incl argp ep = Except.ok l) :
    l.length = n * p ∧
    ∀ pi si, pi < p → si < n →
      ∃ y, forge_tle_single (satNameOf pi si) (alt * 1000) ecc incl
          ((pi : ℚ) * 10) argp ((si : ℚ) * (360 / (n : ℚ))) ep = Except.ok y ∧
        l[pi * n + si]? = some y := by
  unfold forge_tle_belt at h
  by_cases hn : n = 0
  · rw [if_pos hn] at h; exact absurd h (by simp)
  · rw [if_neg hn] at h
    cases hout : rangeMapExcept (fun plane_idx =>
      rangeMapExcept (fun satellite_idx =>
        forge_tle_single (satNameOf plane_idx satellite_idx)
          (alt * 1000) ecc incl ((plane_idx : ℚ) * 10) argp
          ((satellite_idx : ℚ) * (360 / (n : ℚ))) ep) 0 n) 0 p with
    | error e => rw [hout] at h; exact absurd h (by simp)
    | ok planes =>
      rw [hout] at h
      have hpl := Except.ok.inj h
      obtain ⟨hplen, hpmem⟩ := rangeMapExcept_ok _ p 0 planes hout
      have hall : ∀ l' ∈ planes, l'.length = n := by
        intro l' hl'
        obtain ⟨j, hj⟩ := List.mem_iff_getElem?.mp hl'
        have hjlen : j < planes.length :=
          (List.getElem?_eq_some_iff.mp hj).1
        obtain ⟨x, hx, hget⟩ := hpmem j (by omega)
        have hxl : l' = x := by
          rw [hj] at hget
          exact Option.some.inj hget
        obtain ⟨hxlen, _⟩ := rangeMapExcept_ok _ n 0 x hx
        rw [hxl]
        exact hxlen
      constructor
      · rw [← hpl, flatten_length_of_all n planes hall, hplen]
      · intro pi si hpi hsi
        obtain ⟨x, hx, hget⟩ := hpmem pi (by omega)
        obtain ⟨hxlen, hxmem⟩ := rangeMapExcept_ok _ n 0 x hx
        obtain ⟨y, hy, hyget⟩ := hxmem si (by omega)
        obtain ⟨l'', hl'', hg⟩ := flatten_getElem_of_all n planes hall pi si (by omega) hsi
        have hlx : l'' = x := by
          rw [hl''] at hget
          exact Option.some.inj hget
        refine ⟨y, by simpa using hy, ?_⟩
        rw [← hpl, hg, hlx]
        simpa using hyget

-- C1 ----------------------------------------------------------------

/-- C1: whenever `forge_tle_single` returns normally, the result is
name line + newline + line 1 + newline + line 2, where each of lines 1
and 2 is a 68-character data portion followed by the rendered
`_compute_tle_checksum` digit of exactly that data portion, for a total
of 69 characters per line. -/
theorem forge_tle_single_ok_structure (sat_name : String)
    (alt ecc incl raan argp anom : ℚ) (ep : Epoch) (s : String)
    (h : forge_tle_single sat_name alt ecc incl raan argp anom ep = Except.ok s) :
    ∃ d1 d2 : String, d1.length = 68 ∧ d2.length = 68 ∧
      s = sat_name ++ "\n" ++ (d1 ++ natStr (_compute_tle_checksum d1)) ++ "\n" ++
        (d2 ++ natStr (_compute_tle_checksum d2)) ∧
      (d1 ++ natStr (_compute_tle_checksum d1)).length = 69 ∧
      (d2 ++ natStr (_compute_tle_checksum d2)).length = 69 := by
  unfold forge_tle_single at h
  by_cases hl1 : (line1Data ep).length ≠ 68
  · rw [if_pos hl1] at h
    exact absurd h (by simp)
  · rw [if_neg hl1] at h
    by_cases hl2 : (line2Data alt ecc incl raan argp anom).length ≠ 68
    · rw [if_pos hl2] at h
      exact absurd h (by simp)
    · rw [if_neg hl2] at h
      have hs := Except.ok.inj h
      push_neg at hl1 hl2
      refine ⟨line1Data ep, line2Data alt ecc incl raan argp anom, hl1, hl2,
        hs.symm, ?_, ?_⟩
      · rw [String.length_append, natStr_checksum_length, hl1]
      · rw [String.length_append, natStr_checksum_length, hl2]

/-- Witness for C1 at a concrete successful forge. -/
theorem forge_tle_single_ok_structure_witness :
    ∃ d1 d2 : String, d1.length = 68 ∧ d2.length = 68 ∧
      "Test\n1 00000U 25001A   25001.00000000 +.00000000  00000-0  00000-0 0    10\n2 00000  90.0000   0.0000 0000000   0.0000   0.0000 15.55753481000016" =
        "Test" ++ "\n" ++ (d1 ++ natStr (_compute_tle_checksum d1)) ++ "\n" ++
        (d2 ++ natStr (_compute_tle_checksum d2)) ∧
      (d1 ++ natStr (_compute_tle_checksum d1)).length = 69 ∧
      (d2 ++ natStr (_compute_tle_checksum d2)).length = 69 :=
  forge_tle_single_ok_structure "Test" 400000 0 90 0 0 0 ⟨2025, 0⟩ _
    (by with_unfolding_all rfl)

-- C5 ----------------------------------------------------------------

/-- C5 (amended: conditional on the belt call returning normally, which
inputs such as `inclination = 1000` defeat): a successful
`forge_tle_belt` returns exactly `n*p` records in plane-major order, and
the record at position `plane_idx*n + satellite_idx` is the
`forge_tle_single` result for name
`SystemC_Belt_1_Plane_{plane_idx+1}_Satellite_{satellite_idx+1}`,
RAAN `plane_idx * 10.0`, mean anomaly
`satellite_idx * (360.0/num_sats_per_plane)`, and the shared remaining
parameters. -/
theorem forge_tle_belt_order (n p : ℕ) (alt ecc incl argp : ℚ) (ep : Epoch)
    (l : List String)
    (h : forge_tle_belt n p alt ecc incl argp ep = Except.ok l) :
    l.length = n * p ∧
    ∀ pi si, pi < p → si < n →
      l[pi * n + si]? =
        (forge_tle_single (satNameOf pi si) (alt * 1000) ecc incl
          ((pi : ℚ) * 10) argp ((si : ℚ) * (360 / (n : ℚ))) ep).toOption := by
  obtain ⟨hlen, hmem⟩ := belt_ok_spec n p alt ecc incl argp ep l h
  refine ⟨hlen, ?_⟩
  intro pi si hpi hsi
  obtain ⟨y, hy, hget⟩ := hmem pi si hpi hsi
  rw [hget, hy]
  rfl

/-- C5 counterexample: with `n = 1 ≥ 1`, `p = 1 ≥ 0` and shared
inclination 1000 the belt raises instead of returning the `1*1` records
the claim promises. -/
theorem forge_tle_belt_not_total :
    forge_tle_belt 1 1 400 0 1000 0 ⟨2025, 0⟩ =
      Except.error "Line 2 is not 68 characters long before adding checksum." := by
  with_unfolding_all rfl

/-- Witness for C5's amended theorem on a concrete 1-plane, 1-satellite
belt. -/
theorem forge_tle_belt_order_witness :
    (["SystemC_Belt_1_Plane_1_Satellite_1\n1 00000U 25001A   25001.00000000 +.00000000  00000-0  00000-0 0    10\n2 00000  90.0000   0.0000 0000000   0.0000   0.0000 15.55753481000016"] : List String).length = 1 * 1 ∧
    ∀ pi si, pi < 1 → si < 1 →
      (["SystemC_Belt_1_Plane_1_Satellite_1\n1 00000U 25001A   25001.00000000 +.00000000  00000-0  00000-0 0    10\n2 00000  90.0000   0.0000 0000000   0.0000   0.0000 15.55753481000016"] : List String)[pi * 1 + si]? =
        (forge_tle_single (satNameOf pi si) ((400 : ℚ) * 1000) 0 90
          ((pi : ℚ) * 10) 0 ((si : ℚ) * (360 / ((1 : ℕ) : ℚ))) ⟨2025, 0⟩).toOption :=
  forge_tle_belt_order 1 1 400 0 90 0 ⟨2025, 0⟩ _ (by with_unfolding_all rfl)

-- C6 ----------------------------------------------------------------

/-- C6: if the data portion of line 1 or line 2 is not exactly 68
characters, `forge_tle_single` errors out (no record, no padding or
truncation); and a successful belt forge requires every constituent
single forge to have succeeded, so such an error aborts the whole batch
with no partial list. -/
theorem forge_width_invariant_abort :
    (∀ (name : String) (alt ecc incl raan argp anom : ℚ) (ep : Epoch),
      ((line1Data ep).length ≠ 68 ∨
        (line2Data alt ecc incl raan argp anom).length ≠ 68) →
      ∃ msg, forge_tle_single name alt ecc incl raan argp anom ep =
        Except.error msg) ∧
    (∀ (n p : ℕ) (alt ecc incl argp : ℚ) (ep : Epoch) (l : List String),
      forge_tle_belt n p alt ecc incl argp ep = Except.ok l →
      ∀ pi si, pi < p → si < n →
        ∃ s, forge_tle_single (satNameOf pi si) (alt * 1000) ecc incl
          ((pi : ℚ) * 10) argp ((si : ℚ) * (360 / (n : ℚ))) ep = Except.ok s) := by
  constructor
  · intro name alt ecc incl raan argp anom ep h
    unfold forge_tle_single
    by_cases hl1 : (line1Data ep).length ≠ 68
    · rw [if_pos hl1]
      exact ⟨_, rfl⟩
    · rw [if_neg hl1]
      have hl2 : (line2Data alt ecc incl raan argp anom).length ≠ 68 := by
        rcases h with h | h
        · exact absurd h hl1
        · exact h
      rw [if_pos hl2]
      exact ⟨_, rfl⟩
  · intro n p alt ecc incl argp ep l h pi si hpi hsi
    obtain ⟨y, hy, _⟩ := (belt_ok_spec n p alt ecc incl argp ep l h).2 pi si hpi hsi
    exact ⟨y, hy⟩

/-- Witness for C6 at a concrete over-wide line 2 (RAAN 1000). -/
theorem forge_width_invariant_abort_witness :
    ∃ msg, forge_tle_single "X" 400000 0 90 1000 0 0 ⟨2025, 0⟩ =
      Except.error msg :=
  forge_width_invariant_abort.1 "X" 400000 0 90 1000 0 0 ⟨2025, 0⟩
    (Or.inr (by with_unfolding_all decide))

-- C9 ----------------------------------------------------------------

/-- C9: for every plane count (including 0), a belt with
`num_sats_per_plane = 0` raises the division-by-zero error from
`step = 360.0 / num_sats_per_plane` before forging anything; it never
returns a list, not even the empty one. -/
theorem forge_tle_belt_zero_sats (p : ℕ) (alt ecc incl argp : ℚ) (ep : Epoch) :
    forge_tle_belt 0 p alt ecc incl argp ep =
      Except.error "ZeroDivisionError: float division by zero" := by
  unfold forge_tle_belt
  rw [if_pos rfl]

-- C10 ---------------------------------------------------------------

/-- C10: whenever any of the four angle fields renders to more than 8
characters under `{:8.4f}` (for instance any angle ≥ 1000.0 or
≤ -100.0), `forge_tle_single` raises the line-2 length error instead of
returning a record (for any epoch inside a calendar year). -/
theorem forge_angle_field_overflow (name : String)
    (alt ecc incl raan argp anom : ℚ) (ep : Epoch)
    (h0 : 0 ≤ ep.elapsedDays) (h1 : ep.elapsedDays < 366)
    (hangle : 8 < (fmtFixed 8 4 false false incl).length ∨
      8 < (fmtFixed 8 4 false false raan).length ∨
      8 < (fmtFixed 8 4 false false argp).length ∨
      8 < (fmtFixed 8 4 false false anom).length) :
    forge_tle_single name alt ecc incl raan argp anom ep =
      Except.error "Line 2 is not 68 characters long before adding checksum." := by
  unfold forge_tle_single
  have hl1 : ¬ (line1Data ep).length ≠ 68 := by
    rw [line1Data_length ep h0 h1]
    omega
  rw [if_neg hl1]
  have hl2 : (line2Data alt ecc incl raan argp anom).length ≠ 68 := by
    rw [line2Data_length_eq]
    have gi := fmtFixed_length_ge 8 4 false false incl
    have gr := fmtFixed_length_ge 8 4 false false raan
    have gp := fmtFixed_length_ge 8 4 false false argp
    have ga := fmtFixed_length_ge 8 4 false false anom
    have ge' : 7 ≤ (padRightSpaces 7 (eccStr ecc)).length := by
      rw [padRightSpaces_length]
      omega
    have gm := fmtFixed_length_ge 11 8 false false (mean_motion_rev_day alt)
    omega
  rw [if_pos hl2]

/-- Witness for C10 with RAAN = 1000 (whose `8.4f` rendering
`"1000.0000"` has 9 characters). -/
theorem forge_angle_field_overflow_witness :
    forge_tle_single "X" 400000 0 90 1000 0 0 ⟨2025, 0⟩ =
      Except.error "Line 2 is not 68 characters long before adding checksum." :=
  forge_angle_field_overflow "X" 400000 0 90 1000 0 0 ⟨2025, 0⟩
    (by norm_num) (by norm_num)
    (Or.inr (Or.inl (by with_unfolding_all decide)))

-- C7 ----------------------------------------------------------------

theorem eccStr_eq_pad (e : ℚ) (h0 : 0 ≤ e) (h1 : e < 1) :
    eccStr e = intPad0 7 ((rndHalfEven (|e| * 10 ^ 7) % 10 ^ 7).toNat) := by
  have habs : |e| = e := abs_of_nonneg h0
  have hn0 : 0 ≤ rndHalfEven (|e| * 10 ^ 7) := by
    rw [habs]
    exact rndHalfEven_nonneg (by positivity)
  have hnle : rndHalfEven (|e| * 10 ^ 7) ≤ 10 ^ 7 := by
    rw [habs]
    apply rndHalfEven_le
    push_cast
    nlinarith
  have hip : (rndHalfEven (|e| * 10 ^ 7) / 10 ^ 7).toNat < 10 := by omega
  unfold eccStr fmtFixed
  simp only [Bool.false_eq_true, if_false]
  rw [if_neg (not_lt.mpr h0), if_neg (show (7:ℕ) ≠ 0 by norm_num)]
  apply String.ext
  rw [String.data_drop]
  unfold padLeftWith
  rw [natStr_one_digit hip]
  simp [Nat.zero_sub]

/-- C7: for every eccentricity in [0, 1) the line-2 eccentricity field
`f"{eccentricity:.7f}"[2:]` is exactly 7 characters, all decimal digits
(the zero-padded 7-digit fraction of the half-even rounding to 7
decimals); eccentricity 0 yields `"0000000"`. -/
theorem eccentricity_field_seven_digits (e : ℚ) (h0 : 0 ≤ e) (h1 : e < 1) :
    (eccStr e).length = 7 ∧ (∀ c ∈ (eccStr e).data, c.isDigit = true) ∧
      eccStr 0 = "0000000" := by
  rw [eccStr_eq_pad e h0 h1]
  have hfp : ((rndHalfEven (|e| * 10 ^ 7) % 10 ^ 7).toNat) < 10 ^ 7 := by
    have h2 : 0 ≤ rndHalfEven (|e| * 10 ^ 7) % 10 ^ 7 :=
      Int.emod_nonneg _ (by norm_num)
    have h3 : rndHalfEven (|e| * 10 ^ 7) % 10 ^ 7 < 10 ^ 7 :=
      Int.emod_lt_of_pos _ (by norm_num)
    omega
  exact ⟨intPad0_length_of_lt (by norm_num) hfp, intPad0_digits _ _,
    by with_unfolding_all rfl⟩

/-- Witness for C7 at eccentricity 1/4 (`"2500000"`). -/
theorem eccentricity_field_seven_digits_witness :
    (eccStr (1/4 : ℚ)).length = 7 ∧
      (∀ c ∈ (eccStr (1/4 : ℚ)).data, c.isDigit = true) ∧
      eccStr 0 = "0000000" :=
  eccentricity_field_seven_digits (1/4) (by norm_num) (by norm_num)

-- C8 ----------------------------------------------------------------

/-- C8: the mean-motion field of line 2 is the 11-wide, 8-fractional-
digit rendering of `mean_motion_rev_day altitude` (offset 52, just
before the 5-character revolution number, whenever the line has its
required 68 characters); and at the example altitude 400000 m that
value satisfies `n^2 (2 pi)^2 a^3 = GM * 86400^2` to within 1e14
absolute (about 3e-11 relative), i.e. it is
`sqrt(GM/a^3) * 86400/(2 pi)` as claimed. The field there is
`"15.55753481"`. -/
theorem mean_motion_field_spec :
    (∀ alt ecc incl raan argp anom : ℚ, ∃ pre : String,
      line2Data alt ecc incl raan argp anom =
        pre ++ fmtFixed 11 8 false false (mean_motion_rev_day alt) ++
          intPad0 5 rev_number ∧
      ((line2Data alt ecc incl raan argp anom).length = 68 →
        pre.length = 52 ∧
        (fmtFixed 11 8 false false (mean_motion_rev_day alt)).length = 11)) ∧
    fmtFixed 11 8 false false (mean_motion_rev_day 400000) = "15.55753481" ∧
    |((mean_motion_rev_day 400000 : ℚ) : ℝ) ^ 2 * (2 * Real.pi) ^ 2 *
        ((R_earth + 400000 : ℚ) : ℝ) ^ 3 -
      ((GM_earth : ℚ) : ℝ) * 86400 ^ 2| ≤ 10 ^ 14 := by
  refine ⟨?_, by with_unfolding_all rfl, ?_⟩
  · intro alt ecc incl raan argp anom
    refine ⟨"2 " ++ intPad0 5 sat_number ++ " " ++
      fmtFixed 8 4 false false incl ++ " " ++
      fmtFixed 8 4 false false raan ++ " " ++
      padRightSpaces 7 (eccStr ecc) ++ " " ++
      fmtFixed 8 4 false false argp ++ " " ++
      fmtFixed 8 4 false false anom ++ " ", ?_, ?_⟩
    · unfold line2Data
      rfl
    · intro h68
      rw [line2Data_length_eq] at h68
      have gi := fmtFixed_length_ge 8 4 false false incl
      have gr := fmtFixed_length_ge 8 4 false false raan
      have gp := fmtFixed_length_ge 8 4 false false argp
      have ga := fmtFixed_length_ge 8 4 false false anom
      have ge' : 7 ≤ (padRightSpaces 7 (eccStr ecc)).length := by
        rw [padRightSpaces_length]
        omega
      have gm := fmtFixed_length_ge 11 8 false false (mean_motion_rev_day alt)
      constructor
      · simp only [String.length_append]
        rw [show (intPad0 5 sat_number).length = 5 from rfl,
          show ("2 " : String).length = 2 from rfl,
          show (" " : String).length = 1 from rfl]
        omega
      · omega
  · have hv1 : (15557534810689/1000000000000 : ℚ) < mean_motion_rev_day 400000 := by
      with_unfolding_all decide
    have hv2 : mean_motion_rev_day 400000 < 15557534810690/1000000000000 := by
      with_unfolding_all decide
    have hv1' : (15557534810689/1000000000000 : ℝ) < ((mean_motion_rev_day 400000 : ℚ) : ℝ) := by
      have h : ((15557534810689/1000000000000 : ℚ) : ℝ) <
          ((mean_motion_rev_day 400000 : ℚ) : ℝ) := Rat.cast_lt.mpr hv1
      push_cast at h
      exact h
    have hv2' : ((mean_motion_rev_day 400000 : ℚ) : ℝ) < 15557534810690/1000000000000 := by
      have h : ((mean_motion_rev_day 400000 : ℚ) : ℝ) <
          ((15557534810690/1000000000000 : ℚ) : ℝ) := Rat.cast_lt.mpr hv2
      push_cast at h
      exact h
    have hA : ((R_earth + 400000 : ℚ) : ℝ) = 6778100 := by
      norm_num [R_earth]
    have hGM : ((GM_earth : ℚ) : ℝ) = 398600400000000 := by
      norm_num [GM_earth]
    rw [hA, hGM]
    have ht0 : (0:ℝ) < ((mean_motion_rev_day 400000 : ℚ) : ℝ) := by
      linarith [hv1']
    have ht2lo : ((15557534810689/1000000000000 : ℝ))^2 <
        ((mean_motion_rev_day 400000 : ℚ) : ℝ)^2 := by
      nlinarith [hv1', ht0]
    have ht2hi : ((mean_motion_rev_day 400000 : ℚ) : ℝ)^2 <
        ((15557534810690/1000000000000 : ℝ))^2 := by
      nlinarith [hv2', ht0]
    have hpg : (3.14159265358979323846 : ℝ) < Real.pi := Real.pi_gt_d20
    have hpl : Real.pi < 3.14159265358979323847 := Real.pi_lt_d20
    have hp0 : (0:ℝ) < 2 * Real.pi := by linarith
    have hp2lo : ((2 * 3.14159265358979323846 : ℝ))^2 < (2 * Real.pi)^2 := by
      nlinarith [hpg, hp0]
    have hp2hi : (2 * Real.pi)^2 < ((2 * 3.14159265358979323847 : ℝ))^2 := by
      nlinarith [hpl, hp0]
    have hub : ((mean_motion_rev_day 400000 : ℚ) : ℝ)^2 * (2 * Real.pi)^2 <
        ((15557534810690/1000000000000 : ℝ))^2 * ((2 * 3.14159265358979323847 : ℝ))^2 :=
      mul_lt_mul'' ht2hi hp2hi (by positivity) (by positivity)
    have hlb : ((15557534810689/1000000000000 : ℝ))^2 * ((2 * 3.14159265358979323846 : ℝ))^2 <
        ((mean_motion_rev_day 400000 : ℚ) : ℝ)^2 * (2 * Real.pi)^2 :=
      mul_lt_mul'' ht2lo hp2lo (by positivity) (by positivity)
    rw [abs_le]
    have hnum1 : ((15557534810690/1000000000000 : ℝ))^2 * ((2 * 3.14159265358979323847 : ℝ))^2 *
        (6778100:ℝ)^3 - 398600400000000 * 86400 ^ 2 ≤ 10 ^ 14 := by
      norm_num
    have hnum2 : (-(10 ^ 14) : ℝ) ≤
        ((15557534810689/1000000000000 : ℝ))^2 * ((2 * 3.14159265358979323846 : ℝ))^2 *
        (6778100:ℝ)^3 - 398600400000000 * 86400 ^ 2 := by
      norm_num
    constructor
    · nlinarith [hlb]
    · nlinarith [hub]

/-- Witness for C8's positional part at the example inputs. -/
theorem mean_motion_field_spec_witness :
    ∃ pre : String, line2Data 400000 0 90 0 0 0 =
      pre ++ fmtFixed 11 8 false false (mean_motion_rev_day 400000) ++
        intPad0 5 rev_number ∧ pre.length = 52 := by
  obtain ⟨pre, heq, hcond⟩ := mean_motion_field_spec.1 400000 0 90 0 0 0
  exact ⟨pre, heq, (hcond (by with_unfolding_all rfl)).1⟩
